import Mathlib

/-!
Verification of the quantum P2P core of the `ultimate-agent` repository.

Shallow embedding of
  `ultimate_agent/network/p2p/quantum_crypto.py`,
  `ultimate_agent/network/p2p/fault_tolerance.py`,
  `ultimate_agent/network/p2p/adaptive_routing.py`, and
  `ultimate_agent/network/p2p/quantum_enhanced_p2p.py` (metrics part).

Python byte strings and text strings are modelled as `List Nat`
(byte values / character codes); Python dicts as association lists;
Python ints as `Int` (or `Nat` for values that are non-negative by
construction); Python floats as `ℚ`.  The library crypto primitives
(HKDF, AES-256-GCM, HMAC-SHA-256 from the `cryptography`/`hmac`
modules, which are external to the repository) are modelled by
executable deterministic stand-ins that preserve exactly the
structure the code relies on: key derivation is injective pairing of
its inputs, the cipher is a keystream XOR (so decryption with the
same derived key and nonce inverts encryption), and the GCM tag and
HMAC digest are deterministic byte-valued functions of their inputs.
-/

namespace UltimateAgent

/-- Python dict lookup `d.get(k)` on a string-keyed dict, as an
association list lookup. -/
def alGet {β : Type} (l : List (List Nat × β)) (k : List Nat) : Option β :=
  match l with
  | [] => none
  | (k', v) :: rest => if k' = k then some v else alGet rest k

/-- Python dict assignment `d[k] = v`: replace the binding if the key is
present, otherwise append it. -/
def alSet {β : Type} (l : List (List Nat × β)) (k : List Nat) (v : β) :
    List (List Nat × β) :=
  match l with
  | [] => [(k, v)]
  | (k', v') :: rest =>
      if k' = k then (k, v) :: rest else (k', v') :: alSet rest k v

/-- Code of the lowercase hex digit for `n < 16`, as emitted by Python
`bytes.hex()`. -/
def hexDigitCode (n : Nat) : Nat := if n < 10 then 48 + n else 87 + n

/-- `bytes.hex()`: two lowercase hex digits per byte. -/
def bytesHex (bs : List Nat) : List Nat :=
  bs.foldr (fun b acc => hexDigitCode (b / 16) :: hexDigitCode (b % 16) :: acc) []

/-- Value of a hex digit character code (Python `bytes.fromhex` accepts
both cases); `none` on a non-hex character (ValueError). -/
def hexDigitVal (c : Nat) : Option Nat :=
  if 48 ≤ c ∧ c ≤ 57 then some (c - 48)
  else if 97 ≤ c ∧ c ≤ 102 then some (c - 87)
  else if 65 ≤ c ∧ c ≤ 70 then some (c - 55)
  else none

/-- `bytes.fromhex`: parses pairs of hex digits; `none` (ValueError) on an
odd-length string or a non-hex character. -/
def bytesFromHex : List Nat → Option (List Nat)
  | [] => some []
  | [_] => none
  | c1 :: c2 :: rest =>
      match hexDigitVal c1, hexDigitVal c2, bytesFromHex rest with
      | some h, some l, some bs => some ((16 * h + l) :: bs)
      | _, _, _ => none

/-- Model of an HKDF-SHA-256 derived key: derivation is the (injective)
pairing of salt, info and input key material. -/
structure DerivedKey where
  salt : List Nat
  info : List Nat
  ikm : List Nat
deriving DecidableEq

/-- `HKDF(algorithm=SHA256, length=32, salt=salt, info=info).derive(ikm)`. -/
def hkdfSha256 (salt info ikm : List Nat) : DerivedKey := ⟨salt, info, ikm⟩

/-- One mixing step of the deterministic stand-in PRF. -/
def mixStep (a b : Nat) : Nat := (a * 131 + b + 7) % 1000000007

/-- Deterministic mixing of a byte list (stand-in for a hash). -/
def mix (xs : List Nat) : Nat := xs.foldl mixStep 17

/-- Byte `i` of the stand-in PRF keyed by `xs`. -/
def prfByte (xs : List Nat) (i : Nat) : Nat := mix (i :: xs) % 256

/-- Injective serialization of a derived key (length separators keep the
three components apart). -/
def serKey (k : DerivedKey) : List Nat :=
  k.salt.length :: k.salt ++ k.info.length :: k.info ++ k.ikm

/-- AES-CTR-style keystream of `n` bytes for the model cipher. -/
def keystream (k : DerivedKey) (nonce : List Nat) (n : Nat) : List Nat :=
  (List.range n).map (fun i => prfByte (serKey k ++ nonce) i)

/-- Model GCM authentication tag: 16 bytes determined by key, nonce,
associated data and ciphertext. -/
def gcmTag (k : DerivedKey) (nonce aad ct : List Nat) : List Nat :=
  (List.range 16).map
    (fun i => prfByte (serKey k ++ nonce.length :: nonce ++ aad.length :: aad ++ ct) (i + 1000))

/-- Model of AES-256-GCM encryption: keystream XOR plus tag. -/
def aesGcmEncrypt (k : DerivedKey) (nonce aad pt : List Nat) :
    List Nat × List Nat :=
  let ct := List.zipWith (· ^^^ ·) pt (keystream k nonce pt.length)
  (ct, gcmTag k nonce aad ct)

/-- Model of AES-256-GCM decryption: verify the tag (InvalidTag raises,
modelled as `none`), then invert the keystream XOR. -/
def aesGcmDecrypt (k : DerivedKey) (nonce tag aad ct : List Nat) :
    Option (List Nat) :=
  if gcmTag k nonce aad ct = tag then
    some (List.zipWith (· ^^^ ·) ct (keystream k nonce ct.length))
  else none

/-- Model of `hmac.new(key, msg, sha256).digest()`: 32 bytes determined by
key and message. -/
def hmacSha256 (k : DerivedKey) (msg : List Nat) : List Nat :=
  (List.range 32).map (fun i => prfByte (serKey k ++ msg.length :: msg) (i + 2000))

/-- Character codes of `"hmac_salt"`. -/
def hmacSaltBytes : List Nat := [104, 109, 97, 99, 95, 115, 97, 108, 116]

/-- Character codes of `"quantum_p2p_hmac"`. -/
def quantumP2pHmacBytes : List Nat :=
  [113, 117, 97, 110, 116, 117, 109, 95, 112, 50, 112, 95, 104, 109, 97, 99]

/-- `f"{a}:{b}"`: the key identifier / HKDF info string (58 is `':'`). -/
def keyIdFor (a b : List Nat) : List Nat := a ++ 58 :: b

/-- `int.to_bytes(8, 'big')`: 8 big-endian bytes; `none` (OverflowError)
when the value does not fit (negative or ≥ 2^64 = 18446744073709551616). -/
def intToBytesBE8 (n : Int) : Option (List Nat) :=
  if 0 ≤ n ∧ n < (18446744073709551616 : Int) then
    some ((List.range 8).map (fun i => n.toNat / 256 ^ (7 - i) % 256))
  else none

/-- `QuantumKey` dataclass from `quantum_crypto.py`. -/
structure QuantumKey where
  key_id : List Nat
  symmetric_key : List Nat
  created_at : Nat
  peer_id : List Nat
  sequence_number : Nat
deriving DecidableEq

/-- `QuantumKey.is_expired` with the default `ttl_seconds = 3600`
(the only way the code calls it): `time.time() - created_at > 3600`,
at explicit current time `now`. -/
def QuantumKey.is_expired (k : QuantumKey) (now : Nat) : Bool :=
  decide (3600 < now - k.created_at)

/-- Mutable state of a `QuantumEncryptionProtocol` instance: the node id,
the per-peer key store and the per-sender inbound sequence watermarks
(`sequence_numbers`).  The RSA node keypair is never used by
encrypt/decrypt and is omitted. -/
structure QuantumEncryptionProtocol where
  node_id : List Nat
  key_store : List (List Nat × QuantumKey)
  sequence_numbers : List (List Nat × Int)
deriving DecidableEq

/-- `self.sequence_numbers.get(sender_node, 0)`. -/
def watermarkOf (st : QuantumEncryptionProtocol) (sender : List Nat) : Int :=
  (alGet st.sequence_numbers sender).getD 0

/-- `QuantumEncryptionProtocol._get_or_create_key`.  `now` is the current
time and `fresh` the output of `secrets.token_bytes(32)` drawn when a new
key is created.  Returns the key together with the updated protocol
state (the store gains the new record at `"{node_id}:{peer_id}"`). -/
def get_or_create_key (st : QuantumEncryptionProtocol) (now : Nat)
    (fresh : List Nat) (peer_id : List Nat) :
    QuantumKey × QuantumEncryptionProtocol :=
  let key_id := keyIdFor st.node_id peer_id
  match alGet st.key_store key_id with
  | some key =>
      if key.is_expired now = false then (key, st)
      else
        let quantum_key : QuantumKey := ⟨key_id, fresh, now, peer_id, 0⟩
        (quantum_key, { st with key_store := alSet st.key_store key_id quantum_key })
  | none =>
      let quantum_key : QuantumKey := ⟨key_id, fresh, now, peer_id, 0⟩
      (quantum_key, { st with key_store := alSet st.key_store key_id quantum_key })

/-- The envelope dict returned by a successful `quantum_encrypt` (the
`"encrypted": True` case).  `nonce`, `ciphertext`, `tag` and `hmac` are
hex strings (character codes); `sequence` is an int; `key_id` a string. -/
structure EncryptedEnvelope where
  nonce : List Nat
  ciphertext : List Nat
  tag : List Nat
  sequence : Int
  key_id : List Nat
  hmac : List Nat
deriving DecidableEq

/-- Result of `quantum_encrypt`: the success envelope, or the
`{"encrypted": False, "error": ...}` dict produced by the `except`
clause. -/
inductive EncryptResult where
  | ok (env : EncryptedEnvelope)
  | err
deriving DecidableEq

/-- Lines 54–97 of `quantum_encrypt`, after the counter increment: key
derivation, AES-GCM encryption, HMAC, and the envelope dict, for the
record's symmetric key `symmetric_key`, its `key_id` and the
incremented sequence value `seqI`.  `int.to_bytes(8)` overflow is the
one body exception reachable in the model; it is caught by the
`except` clause. -/
def encryptPayload (node target symmetric_key key_id : List Nat)
    (seqI : Int) (nonce data : List Nat) : EncryptResult :=
  match intToBytesBE8 seqI with
  | none => .err
  | some seq_bytes =>
      let derived_key := hkdfSha256 nonce (keyIdFor node target) symmetric_key
      let ct := aesGcmEncrypt derived_key nonce seq_bytes data
      let hmac_key := hkdfSha256 hmacSaltBytes quantumP2pHmacBytes symmetric_key
      let message_hmac := hmacSha256 hmac_key (nonce ++ seq_bytes ++ ct.1 ++ ct.2)
      .ok ⟨bytesHex nonce, bytesHex ct.1, bytesHex ct.2, seqI, key_id,
           bytesHex message_hmac⟩

/-- `QuantumEncryptionProtocol.quantum_encrypt`.  Explicit inputs for the
ambient effects: `now` (`time.time()`), `nonce`
(`secrets.token_bytes(12)`), `fresh` (the 32 bytes drawn if a new key is
created).  The in-place mutation `quantum_key.sequence_number += 1`
mutates the record stored under `"{node_id}:{target_node}"`, so the
store is updated at that key; the rest of the body is
`encryptPayload`.  On the overflow error the counter increment has
already happened, exactly as in the source. -/
def quantum_encrypt (st : QuantumEncryptionProtocol) (now : Nat)
    (nonce fresh data target_node : List Nat) :
    EncryptResult × QuantumEncryptionProtocol :=
  let pair := get_or_create_key st now fresh target_node
  let key_id := keyIdFor st.node_id target_node
  let quantum_key : QuantumKey :=
    { pair.1 with sequence_number := pair.1.sequence_number + 1 }
  let st2 : QuantumEncryptionProtocol :=
    { pair.2 with key_store := alSet pair.2.key_store key_id quantum_key }
  (encryptPayload st.node_id target_node quantum_key.symmetric_key
     quantum_key.key_id (quantum_key.sequence_number : Int) nonce data,
   st2)

/-- A Python value found in an inbound envelope dict: a string or an int
(other values behave like a string of the wrong shape and are subsumed
by the failing branches). -/
inductive PyValue where
  | vstr (s : List Nat)
  | vint (n : Int)
deriving DecidableEq

/-- An arbitrary inbound envelope dict as seen by `quantum_decrypt`:
every field may be missing or hold a value of either type. -/
structure AnyEnvelope where
  key_id : Option PyValue
  sequence : Option PyValue
  nonce : Option PyValue
  ciphertext : Option PyValue
  tag : Option PyValue
  hmac : Option PyValue
deriving DecidableEq

/-- `bytes.fromhex(encrypted_data[field])`: the field must be present and
a string (KeyError / TypeError otherwise) and must parse as hex
(ValueError otherwise); all three raise and are caught, modelled as
`none`. -/
def getHexField (v : Option PyValue) : Option (List Nat) :=
  match v with
  | some (.vstr s) => bytesFromHex s
  | _ => none

/-- View of a well-formed envelope as an inbound dict. -/
def toAnyEnvelope (e : EncryptedEnvelope) : AnyEnvelope :=
  ⟨some (.vstr e.key_id), some (.vint e.sequence), some (.vstr e.nonce),
   some (.vstr e.ciphertext), some (.vstr e.tag), some (.vstr e.hmac)⟩

/-- `QuantumEncryptionProtocol.quantum_decrypt`.  Returns the optional
plaintext together with the updated protocol state; every failing branch
(missing field, wrong type, unknown key id, replay, bad hex, sequence
overflow, HMAC mismatch, GCM tag failure — whether an early `return
None` or an exception caught by the `except` clause) yields
`(none, st)`, and only the final success assigns
`sequence_numbers[sender_node] = sequence`. -/
def quantum_decrypt (st : QuantumEncryptionProtocol)
    (encrypted_data : AnyEnvelope) (sender_node : List Nat) :
    Option (List Nat) × QuantumEncryptionProtocol :=
  match encrypted_data.key_id with
  | none => (none, st)
  | some (.vint _) => (none, st)
  | some (.vstr key_id) =>
    match alGet st.key_store key_id with
    | none => (none, st)
    | some quantum_key =>
      match encrypted_data.sequence with
      | none => (none, st)
      | some (.vstr _) => (none, st)
      | some (.vint sequence) =>
        if sequence ≤ watermarkOf st sender_node then (none, st)
        else
          match getHexField encrypted_data.nonce,
                getHexField encrypted_data.ciphertext,
                getHexField encrypted_data.tag,
                getHexField encrypted_data.hmac with
          | some nonce, some ciphertext, some tag, some received_hmac =>
              let hmac_key := hkdfSha256 hmacSaltBytes quantumP2pHmacBytes
                quantum_key.symmetric_key
              match intToBytesBE8 sequence with
              | none => (none, st)
              | some seq_bytes =>
                  let expected_hmac := hmacSha256 hmac_key
                    (nonce ++ seq_bytes ++ ciphertext ++ tag)
                  if received_hmac ≠ expected_hmac then (none, st)
                  else
                    let derived_key := hkdfSha256 nonce
                      (keyIdFor sender_node st.node_id)
                      quantum_key.symmetric_key
                    match aesGcmDecrypt derived_key nonce tag seq_bytes
                      ciphertext with
                    | none => (none, st)
                    | some plaintext =>
                        (some plaintext,
                         { st with sequence_numbers := alSet st.sequence_numbers sender_node sequence })
          | _, _, _, _ => (none, st)

/-- Inputs of one `quantum_encrypt` call that come from the environment:
current time, fresh nonce, fresh key bytes, and the plaintext. -/
structure EncCall where
  now : Nat
  nonce : List Nat
  fresh : List Nat
  data : List Nat
deriving DecidableEq

/-- A run of successive `quantum_encrypt` calls to one target,
accumulating the results and threading the protocol state. -/
def quantum_encrypt_iter (st : QuantumEncryptionProtocol)
    (target : List Nat) :
    List EncCall → List EncryptResult × QuantumEncryptionProtocol
  | [] => ([], st)
  | c :: cs =>
      let r := quantum_encrypt st c.now c.nonce c.fresh c.data target
      let rest := quantum_encrypt_iter r.2 target cs
      (r.1 :: rest.1, rest.2)

/-- The sequence field of a successful encrypt result. -/
def emittedSequence : EncryptResult → Option Int
  | .ok e => some e.sequence
  | .err => none

/-- `CircuitState` enum from `fault_tolerance.py`. -/
inductive CircuitState where
  | CLOSED
  | OPEN
  | HALF_OPEN
deriving DecidableEq

/-- `CircuitBreakerConfig` dataclass. -/
structure CircuitBreakerConfig where
  failure_threshold : Nat
  timeout_seconds : ℚ
  half_open_max_calls : Nat
  success_threshold : Nat
deriving DecidableEq

/-- The dataclass defaults `CircuitBreakerConfig()`, the configuration
`CSPFaultTolerance.__init__` always installs. -/
def defaultCircuitBreakerConfig : CircuitBreakerConfig := ⟨5, 60, 3, 2⟩

/-- Mutable state of a `CSPFaultTolerance` instance.  The `defaultdict`
tables are association lists; absent keys read as the dict defaults
(0 / `CLOSED`) through the accessors below. -/
structure CSPFaultTolerance where
  node_id : List Nat
  failure_counts : List (List Nat × Nat)
  last_failure_times : List (List Nat × ℚ)
  circuit_states : List (List Nat × CircuitState)
  half_open_calls : List (List Nat × Nat)
  success_counts : List (List Nat × Nat)
  config : CircuitBreakerConfig
deriving DecidableEq

/-- `self.failure_counts[key]` (defaultdict(int)). -/
def failureCountOf (st : CSPFaultTolerance) (k : List Nat) : Nat :=
  (alGet st.failure_counts k).getD 0

/-- `self.circuit_states[key]` (defaultdict of CLOSED). -/
def circuitStateOf (st : CSPFaultTolerance) (k : List Nat) : CircuitState :=
  (alGet st.circuit_states k).getD .CLOSED

/-- `self.half_open_calls[key]` (defaultdict(int)). -/
def halfOpenCallsOf (st : CSPFaultTolerance) (k : List Nat) : Nat :=
  (alGet st.half_open_calls k).getD 0

/-- `self.success_counts[key]` (defaultdict(int)). -/
def successCountOf (st : CSPFaultTolerance) (k : List Nat) : Nat :=
  (alGet st.success_counts k).getD 0

/-- `CSPFaultTolerance._record_failure` at explicit current time `now`. -/
def record_failure (st : CSPFaultTolerance) (circuit_key : List Nat)
    (now : ℚ) : CSPFaultTolerance :=
  let st1 : CSPFaultTolerance :=
    { st with
        failure_counts := alSet st.failure_counts circuit_key (failureCountOf st circuit_key + 1),
        last_failure_times := alSet st.last_failure_times circuit_key now }
  match circuitStateOf st1 circuit_key with
  | .CLOSED =>
      if st1.config.failure_threshold ≤ failureCountOf st1 circuit_key then
        { st1 with circuit_states := alSet st1.circuit_states circuit_key .OPEN }
      else st1
  | .HALF_OPEN =>
      { st1 with circuit_states := alSet st1.circuit_states circuit_key .OPEN }
  | .OPEN => st1

/-- `CSPFaultTolerance._record_success`. -/
def record_success (st : CSPFaultTolerance) (circuit_key : List Nat) :
    CSPFaultTolerance :=
  match circuitStateOf st circuit_key with
  | .HALF_OPEN =>
      let st1 : CSPFaultTolerance :=
        { st with success_counts := alSet st.success_counts circuit_key (successCountOf st circuit_key + 1) }
      if st1.config.success_threshold ≤ successCountOf st1 circuit_key then
        { st1 with
            circuit_states := alSet st1.circuit_states circuit_key .CLOSED,
            failure_counts := alSet st1.failure_counts circuit_key 0 }
      else st1
  | .CLOSED =>
      { st with failure_counts := alSet st.failure_counts circuit_key 0 }
  | .OPEN => st

/-- `CSPFaultTolerance._can_execute` at explicit current time `now`:
returns the admission decision and the (possibly OPEN → HALF_OPEN
transitioned) state. -/
def can_execute (st : CSPFaultTolerance) (circuit_key : List Nat)
    (now : ℚ) : Bool × CSPFaultTolerance :=
  match circuitStateOf st circuit_key with
  | .CLOSED => (true, st)
  | .OPEN =>
      let last_failure := (alGet st.last_failure_times circuit_key).getD 0
      if st.config.timeout_seconds < now - last_failure then
        (true,
         { st with
             circuit_states := alSet st.circuit_states circuit_key .HALF_OPEN,
             half_open_calls := alSet st.half_open_calls circuit_key 0,
             success_counts := alSet st.success_counts circuit_key 0 })
      else (false, st)
  | .HALF_OPEN =>
      (decide (halfOpenCallsOf st circuit_key < st.config.half_open_max_calls), st)

/-- A run of `_record_failure` calls (one per element of `nows`). -/
def record_failures (st : CSPFaultTolerance) (circuit_key : List Nat)
    (nows : List ℚ) : CSPFaultTolerance :=
  nows.foldl (fun s t => record_failure s circuit_key t) st

/-- A run of `n` successive `_can_execute` admission checks (no probe
completes in between), collecting the decisions and threading state. -/
def can_execute_iter (st : CSPFaultTolerance) (circuit_key : List Nat)
    (now : ℚ) : Nat → List Bool × CSPFaultTolerance
  | 0 => ([], st)
  | n + 1 =>
      let r := can_execute st circuit_key now
      let rest := can_execute_iter r.2 circuit_key now n
      (r.1 :: rest.1, rest.2)

/-- `RouteMetrics` dataclass from `adaptive_routing.py`. -/
structure RouteMetrics where
  latency_ms : ℚ
  bandwidth_mbps : ℚ
  success_rate : ℚ
  last_updated : ℚ
deriving DecidableEq

/-- The `optimization_reason` strings produced by `find_optimal_route`
and `_find_best_multihop_route` (string formatting abstracted into
constructors; `best_peer_score` carries the formatted score). -/
inductive OptimizationReason where
  | no_peers_available
  | direct_route_optimal
  | no_viable_routes
  | best_peer_score (score : ℚ)
deriving DecidableEq

/-- `RouteInfo` dataclass; `estimated_latency` is `⊤` for the Python
`float('inf')`. -/
structure RouteInfo where
  route : List (List Nat)
  confidence : ℚ
  estimated_latency : WithTop ℚ
  optimization_reason : OptimizationReason
deriving DecidableEq

/-- Mutable state of a `CSPAdaptiveRouting` instance (only the fields
route selection reads: node id and per-peer metrics). -/
structure CSPAdaptiveRouting where
  node_id : List Nat
  peer_metrics : List (List Nat × RouteMetrics)
deriving DecidableEq

/-- `CSPAdaptiveRouting._calculate_peer_score`, parameterized by the
ambient `math.exp` (as `expQ`) and `time.time()` (as `now`). -/
def calculate_peer_score (expQ : ℚ → ℚ) (now : ℚ)
    (st : CSPAdaptiveRouting) (peer_id : List Nat) : ℚ :=
  match alGet st.peer_metrics peer_id with
  | none => 50
  | some metrics =>
      let age_factor := expQ (-((now - metrics.last_updated) / 300))
      let latency_score := max 0 (100 - metrics.latency_ms / 10)
      let bandwidth_score := min 100 (metrics.bandwidth_mbps * 2)
      let reliability_score := metrics.success_rate * 100
      (latency_score * 0.4 + bandwidth_score * 0.3 + reliability_score * 0.3) * age_factor

/-- `CSPAdaptiveRouting._estimate_latency` (the `target` argument is
unused by the body, as in the source). -/
def estimate_latency (st : CSPAdaptiveRouting)
    (peer target : List Nat) : ℚ :=
  let peer_latency :=
    match alGet st.peer_metrics peer with
    | some m => m.latency_ms
    | none => 100
  peer_latency + 50

/-- `CSPAdaptiveRouting._calculate_confidence`. -/
def calculate_confidence (expQ : ℚ → ℚ) (now : ℚ)
    (metrics : RouteMetrics) : ℚ :=
  let age_factor := expQ (-((now - metrics.last_updated) / 600))
  let performance_factor :=
    (100 - min metrics.latency_ms 100) / 100 * 0.4 +
    min (metrics.bandwidth_mbps / 100) 1 * 0.3 +
    metrics.success_rate * 0.3
  min (age_factor * performance_factor) 1

/-- Insertion into a descending-by-score list that places the new element
after every element of score ≥ its own, matching the stability of
Python's `list.sort(key=score, reverse=True)`: among equal scores the
original (earlier-inserted) order is kept. -/
def insertByScoreDesc (x : ℚ × List Nat × ℚ) :
    List (ℚ × List Nat × ℚ) → List (ℚ × List Nat × ℚ)
  | [] => [x]
  | y :: ys => if y.1 < x.1 then x :: y :: ys else y :: insertByScoreDesc x ys

/-- `scored_peers.sort(key=lambda x: x[0], reverse=True)` as a stable
insertion sort (left fold preserves original order among equal scores). -/
def sortByScoreDesc (l : List (ℚ × List Nat × ℚ)) :
    List (ℚ × List Nat × ℚ) :=
  l.foldl (fun acc x => insertByScoreDesc x acc) []

/-- `CSPAdaptiveRouting._find_best_multihop_route`.  The empty match arm
is the `if not scored_peers` branch (the scored list is empty exactly
when its sort is). -/
def find_best_multihop_route (expQ : ℚ → ℚ) (now : ℚ)
    (st : CSPAdaptiveRouting) (target : List Nat)
    (peers : List (List Nat)) : RouteInfo :=
  let scored_peers := peers.map
    (fun peer => (calculate_peer_score expQ now st peer, peer, estimate_latency st peer target))
  match sortByScoreDesc scored_peers with
  | [] => ⟨[], 0, ⊤, .no_viable_routes⟩
  | best :: _ =>
      ⟨[st.node_id, best.2.1, target], min (best.1 / 100) 1,
       (best.2.2 : ℚ), .best_peer_score best.1⟩

/-- `CSPAdaptiveRouting.find_optimal_route` (the `msg_type` argument is
unused by the body, as in the source).  The direct route is returned
only when the target is a candidate AND has recorded metrics; otherwise
control falls through to the multi-hop search. -/
def find_optimal_route (expQ : ℚ → ℚ) (now : ℚ)
    (st : CSPAdaptiveRouting) (target msg_type : List Nat)
    (peers : List (List Nat)) : RouteInfo :=
  if peers = [] then ⟨[], 0, ⊤, .no_peers_available⟩
  else if target ∈ peers then
    match alGet st.peer_metrics target with
    | some metrics =>
        ⟨[st.node_id, target], calculate_confidence expQ now metrics,
         (metrics.latency_ms : ℚ), .direct_route_optimal⟩
    | none => find_best_multihop_route expQ now st target peers
  else find_best_multihop_route expQ now st target peers

/-- The fields of a `QuantumEnhancedP2PManager` that `get_metrics`
reads (`connected_peers` is kept as its list of keys). -/
structure QuantumEnhancedP2PManager where
  node_id : List Nat
  bind_port : Nat
  running : Bool
  connected_peers : List (List Nat)
  messages_sent : Nat
  messages_received : Nat
  encryption_successes : Nat
  encryption_failures : Nat
deriving DecidableEq

/-- The dict returned by `QuantumEnhancedP2PManager.get_metrics`. -/
structure P2PMetrics where
  node_id : List Nat
  running : Bool
  connected_peers : Nat
  messages_sent : Nat
  messages_received : Nat
  encryption_success_rate : ℚ
  bind_port : Nat
deriving DecidableEq

/-- `QuantumEnhancedP2PManager.get_metrics`: in particular
`encryption_success_rate = successes / max(1, successes + failures)`. -/
def get_metrics (m : QuantumEnhancedP2PManager) : P2PMetrics :=
  ⟨m.node_id, m.running, m.connected_peers.length, m.messages_sent,
   m.messages_received,
   (m.encryption_successes : ℚ) / ((max 1 (m.encryption_successes + m.encryption_failures) : Nat) : ℚ),
   m.bind_port⟩

/-- The 8 big-endian bytes of a natural number (the value of
`n.to_bytes(8, 'big')` when `n < 2^64`); used to state what a successful
encrypt emits. -/
def natToBytesBE8 (n : Nat) : List Nat :=
  (List.range 8).map (fun i => n / 256 ^ (7 - i) % 256)

/-- The envelope a successful `quantum_encrypt` by node `node` to peer
`tgt` emits when it reuses the stored record `rec` (found and not
expired) with nonce `nonce` and plaintext `data`. -/
def encEnvelope (node tgt : List Nat) (rec : QuantumKey)
    (nonce data : List Nat) : EncryptedEnvelope :=
  let sb := natToBytesBE8 (rec.sequence_number + 1)
  let dk := hkdfSha256 nonce (keyIdFor node tgt) rec.symmetric_key
  let ct := aesGcmEncrypt dk nonce sb data
  let hk := hkdfSha256 hmacSaltBytes quantumP2pHmacBytes rec.symmetric_key
  ⟨bytesHex nonce, bytesHex ct.1, bytesHex ct.2,
   ((rec.sequence_number + 1 : Nat) : Int), rec.key_id,
   bytesHex (hmacSha256 hk (nonce ++ sb ++ ct.1 ++ ct.2))⟩

/-! Concrete states used to evaluate the development on explicit inputs.
Node ids are character codes: 97 = `'a'`, 98 = `'b'`, 110 = `'n'`,
115 = `'s'`, 116 = `'t'`, 112 = `'p'`. -/

/-- A freshly constructed manager: no encryption attempted yet. -/
def exManager0 : QuantumEnhancedP2PManager := ⟨[110], 0, false, [], 0, 0, 0, 0⟩

/-- A manager having seen one encryption success and one failure. -/
def exManager1 : QuantumEnhancedP2PManager := ⟨[110], 0, false, [], 0, 0, 1, 1⟩

/-- A fault-tolerance instance whose `"p"` circuit is HALF_OPEN with
`half_open_calls = 0` (as set by the OPEN → HALF_OPEN transition). -/
def exFaultHalfOpen : CSPFaultTolerance :=
  ⟨[110], [], [], [([112], .HALF_OPEN)], [], [], defaultCircuitBreakerConfig⟩

/-- A freshly constructed fault-tolerance instance (all tables empty). -/
def exFaultFresh : CSPFaultTolerance :=
  ⟨[110], [], [], [], [], [], defaultCircuitBreakerConfig⟩

/-- A routing table for node `"s"` with no recorded metrics. -/
def exRoutingEmpty : CSPAdaptiveRouting := ⟨[115], []⟩

/-- Metrics for the direct-route example. -/
def exDirectMetrics : RouteMetrics := ⟨0, 0, 1, 0⟩

/-- A routing table for node `"s"` that knows metrics for `"t"`. -/
def exRoutingDirect : CSPAdaptiveRouting := ⟨[115], [([116], exDirectMetrics)]⟩

/-- Identical metrics shared by two peers (equal score, equal
`last_updated`). -/
def exTieMetrics : RouteMetrics := ⟨0, 0, 1, 5⟩

/-- A routing table where peers `"b"` and `"a"` have identical metrics. -/
def exRoutingTie : CSPAdaptiveRouting :=
  ⟨[115], [([98], exTieMetrics), ([97], exTieMetrics)]⟩

/-- An expired session key (`created_at = 0`, counter 7) for peer `"b"`
with id `"a:b"`. -/
def exExpiredKey : QuantumKey := ⟨[97, 58, 98], List.replicate 32 1, 0, [98], 7⟩

/-- Protocol state of node `"a"` holding only the expired `"a:b"` key. -/
def exCryptoExpired : QuantumEncryptionProtocol :=
  ⟨[97], [([97, 58, 98], exExpiredKey)], []⟩

/-- A live `"a:b"` session key (all-zero 32-byte secret, counter 0). -/
def exKeyAB : QuantumKey := ⟨[97, 58, 98], List.replicate 32 0, 0, [98], 0⟩

/-- Node `"a"` holding the live `"a:b"` key, no watermarks. -/
def exCryptoA : QuantumEncryptionProtocol := ⟨[97], [([97, 58, 98], exKeyAB)], []⟩

/-- Node `"b"` holding the live `"a:b"` key, no watermarks. -/
def exCryptoB : QuantumEncryptionProtocol := ⟨[98], [([97, 58, 98], exKeyAB)], []⟩

/-- Node `"b"` holding the `"a:b"` key with its inbound watermark for
`"a"` already at 5. -/
def exCryptoBHigh : QuantumEncryptionProtocol :=
  ⟨[98], [([97, 58, 98], exKeyAB)], [([97], 5)]⟩

/-- An inbound envelope dict carrying key id `"a:b"` and sequence 3 (the
remaining fields are irrelevant to the replay check and left absent). -/
def exReplayEnv : AnyEnvelope :=
  ⟨some (.vstr [97, 58, 98]), some (.vint 3), none, none, none, none⟩

/-- Two successive encrypt calls (distinct times, nonces and payloads). -/
def exCalls : List EncCall :=
  [⟨1, List.replicate 12 0, [], [104]⟩, ⟨2, List.replicate 12 1, [], [105]⟩]

/-! Supporting lemmas. -/

theorem alGet_alSet_self {β : Type} (l : List (List Nat × β)) (k : List Nat) (v : β) :
    alGet (alSet l k v) k = some v := by
  induction l with
  | nil => simp [alGet, alSet]
  | cons hd tl ih =>
      obtain ⟨k', v'⟩ := hd
      by_cases h : k' = k <;> simp [alGet, alSet, h, ih]

theorem hexDigitVal_hexDigitCode : ∀ d < 16, hexDigitVal (hexDigitCode d) = some d := by
  decide

theorem bytesFromHex_bytesHex (bs : List Nat) (h : ∀ b ∈ bs, b < 256) :
    bytesFromHex (bytesHex bs) = some bs := by
  induction bs with
  | nil => rfl
  | cons b tl ih =>
      have hb : b < 256 := h b (by simp)
      have h1 : b / 16 < 16 := by omega
      have h2 : b % 16 < 16 := by omega
      have htl : bytesFromHex (bytesHex tl) = some tl :=
        ih (fun x hx => h x (List.mem_cons_of_mem _ hx))
      show bytesFromHex (hexDigitCode (b / 16) :: hexDigitCode (b % 16) :: bytesHex tl) = some (b :: tl)
      rw [bytesFromHex, hexDigitVal_hexDigitCode _ h1, hexDigitVal_hexDigitCode _ h2, htl]
      have : 16 * (b / 16) + b % 16 = b := by omega
      simp [this]

theorem zipWith_xor_cancel : ∀ (pt ks : List Nat), ks.length = pt.length →
    List.zipWith (· ^^^ ·) (List.zipWith (· ^^^ ·) pt ks) ks = pt
  | [], _, _ => by simp
  | p :: pt, [], h => by simp at h
  | p :: pt, k :: ks, h => by
      simp only [List.zipWith]
      rw [Nat.xor_cancel_right, zipWith_xor_cancel pt ks (by simpa using h)]

theorem xor_lt_256 {a b : Nat} (ha : a < 256) (hb : b < 256) : a ^^^ b < 256 := by
  have h : Nat.bitwise bne a b < 2 ^ 8 := Nat.bitwise_lt ha hb
  exact h

theorem prfByte_lt (xs : List Nat) (i : Nat) : prfByte xs i < 256 :=
  Nat.mod_lt _ (by norm_num)

theorem mem_keystream_lt {k : DerivedKey} {nonce : List Nat} {n b : Nat}
    (hb : b ∈ keystream k nonce n) : b < 256 := by
  simp only [keystream, List.mem_map] at hb
  obtain ⟨i, -, rfl⟩ := hb
  exact prfByte_lt _ _

theorem mem_gcmTag_lt {k : DerivedKey} {nonce aad ct : List Nat} {b : Nat}
    (hb : b ∈ gcmTag k nonce aad ct) : b < 256 := by
  simp only [gcmTag, List.mem_map] at hb
  obtain ⟨i, -, rfl⟩ := hb
  exact prfByte_lt _ _

theorem mem_hmacSha256_lt {k : DerivedKey} {msg : List Nat} {b : Nat}
    (hb : b ∈ hmacSha256 k msg) : b < 256 := by
  simp only [hmacSha256, List.mem_map] at hb
  obtain ⟨i, -, rfl⟩ := hb
  exact prfByte_lt _ _

theorem mem_zipWith_xor_lt : ∀ (pt ks : List Nat),
    (∀ b ∈ pt, b < 256) → (∀ b ∈ ks, b < 256) →
    ∀ b ∈ List.zipWith (· ^^^ ·) pt ks, b < 256
  | [], _, _, _ => by simp
  | _ :: _, [], _, _ => by simp
  | p :: pt, k :: ks, hp, hk => by
      intro b hb
      simp only [List.zipWith, List.mem_cons] at hb
      rcases hb with rfl | hb
      · exact xor_lt_256 (hp p (by simp)) (hk k (by simp))
      · exact mem_zipWith_xor_lt pt ks (fun x hx => hp x (by simp [hx]))
          (fun x hx => hk x (by simp [hx])) b hb

/-! Claims. -/

/-- C4, counterexample: a freshly constructed node manager (no encryption
attempted, so successes + failures = 0) reports
`encryption_success_rate = 0`, not `1.0` as the claim states — the code
divides by `max(1, 0)`. -/
theorem c4_counterexample :
    exManager0.encryption_successes + exManager0.encryption_failures = 0 ∧
    (get_metrics exManager0).encryption_success_rate = 0 ∧
    (get_metrics exManager0).encryption_success_rate ≠ 1 := by
  refine ⟨rfl, ?_, ?_⟩ <;> simp [get_metrics, exManager0]

/-- C4 (amended): `encryption_success_rate` equals
successes / (successes + failures) when at least one encryption was
attempted, and equals `0` (not `1.0`) when the denominator is 0. -/
theorem c4_success_rate (m : QuantumEnhancedP2PManager) :
    (1 ≤ m.encryption_successes + m.encryption_failures →
      (get_metrics m).encryption_success_rate =
        (m.encryption_successes : ℚ) / ((m.encryption_successes + m.encryption_failures : Nat) : ℚ)) ∧
    (m.encryption_successes + m.encryption_failures = 0 →
      (get_metrics m).encryption_success_rate = 0) := by
  constructor
  · intro h
    simp [get_metrics, Nat.max_eq_right h]
  · intro h
    have hs : m.encryption_successes = 0 := by omega
    simp [get_metrics, h, hs]

/-- Witness for `c4_success_rate` at a manager with one success and one
failure: the rate is 1/2. -/
theorem c4_success_rate_witness :
    1 ≤ exManager1.encryption_successes + exManager1.encryption_failures ∧
    (get_metrics exManager1).encryption_success_rate = (1 : ℚ) / 2 := by
  refine ⟨by decide, ?_⟩
  have h := (c4_success_rate exManager1).1 (by decide)
  rw [h]
  norm_num [exManager1]

/-- C6, code bug: with the `"p"` circuit in HALF_OPEN and
`half_open_calls = 0`, four successive `_can_execute` admission checks
(no probe completing in between) are all admitted and the counter stays
at 0 — `half_open_calls` is never incremented anywhere in the code, so
the `half_open_max_calls` (3) bound is never enforced. -/
theorem c6_half_open_unbounded :
    circuitStateOf exFaultHalfOpen [112] = .HALF_OPEN ∧
    (can_execute_iter exFaultHalfOpen [112] 0 4).1 = [true, true, true, true] ∧
    halfOpenCallsOf (can_execute_iter exFaultHalfOpen [112] 0 4).2 [112] = 0 := by
  decide

/-- C7, counterexample: with `target = "t"` among the candidates but no
recorded metrics for it, `find_optimal_route` does not return the direct
two-element path `[self, target]` — it falls through to the multi-hop
search and returns the three-element path `["s", "t", "t"]`. -/
theorem c7_counterexample :
    ([116] : List Nat) ∈ [([116] : List Nat)] ∧
    (find_optimal_route (fun _ => 1) 0 exRoutingEmpty [116] [] [[116]]).route = [[115], [116], [116]] ∧
    (find_optimal_route (fun _ => 1) 0 exRoutingEmpty [116] [] [[116]]).route ≠ [exRoutingEmpty.node_id, [116]] := by
  refine ⟨by decide, by decide, by decide⟩

/-- C7 (amended): when the candidate list is non-empty, the target is
among the candidates AND the routing table holds metrics for the target,
selection returns the direct path `[self, target]` with confidence
computed from the target's metrics; a target without recorded metrics
instead falls through to the multi-hop proposal.  Stated for every
ambient `exp` function and current time. -/
theorem c7_direct_route (expQ : ℚ → ℚ) (now : ℚ) (st : CSPAdaptiveRouting)
    (target msg_type : List Nat) (peers : List (List Nat)) (m : RouteMetrics)
    (hne : peers ≠ [])
    (hmem : target ∈ peers)
    (hm : alGet st.peer_metrics target = some m) :
    find_optimal_route expQ now st target msg_type peers =
      ⟨[st.node_id, target], calculate_confidence expQ now m,
       (m.latency_ms : ℚ), .direct_route_optimal⟩ := by
  simp [find_optimal_route, hne, hmem, hm]

/-- Witness for `c7_direct_route` at node `"s"`, target `"t"` with
recorded metrics. -/
theorem c7_direct_route_witness :
    ([[116]] : List (List Nat)) ≠ [] ∧ ([116] : List Nat) ∈ [[116]] ∧
    alGet exRoutingDirect.peer_metrics [116] = some exDirectMetrics ∧
    find_optimal_route (fun _ => 1) 0 exRoutingDirect [116] [] [[116]] =
      ⟨[exRoutingDirect.node_id, [116]], calculate_confidence (fun _ => 1) 0 exDirectMetrics,
       (exDirectMetrics.latency_ms : ℚ), .direct_route_optimal⟩ :=
  ⟨by decide, by decide, rfl,
   c7_direct_route (fun _ => 1) 0 exRoutingDirect [116] [] [[116]] exDirectMetrics
     (by decide) (by decide) rfl⟩

/-- C8, counterexample: peers `"b"` and `"a"` carry identical metrics
(equal scores, equal `last_updated`), so the claim's tie-breaking selects
the lexically smaller `"a"`; the code's stable sort on score alone keeps
candidate-list order and selects `"b"`, which comes first in the list. -/
theorem c8_counterexample :
    calculate_peer_score (fun _ => 1) 5 exRoutingTie [98] =
      calculate_peer_score (fun _ => 1) 5 exRoutingTie [97] ∧
    (find_optimal_route (fun _ => 1) 5 exRoutingTie [116] [] [[98], [97]]).route = [[115], [98], [116]] ∧
    (find_optimal_route (fun _ => 1) 5 exRoutingTie [116] [] [[98], [97]]).route ≠ [[115], [97], [116]] := by
  have hs : calculate_peer_score (fun _ => 1) 5 exRoutingTie [98] =
      calculate_peer_score (fun _ => 1) 5 exRoutingTie [97] := rfl
  have h1 : find_optimal_route (fun _ => 1) 5 exRoutingTie [116] [] [[98], [97]] =
      find_best_multihop_route (fun _ => 1) 5 exRoutingTie [116] [[98], [97]] := by
    rw [find_optimal_route, if_neg (by decide), if_neg (by decide)]
  have hnot : ¬ (calculate_peer_score (fun _ => 1) 5 exRoutingTie [98] <
      calculate_peer_score (fun _ => 1) 5 exRoutingTie [97]) := by
    rw [← hs]
    exact lt_irrefl _
  have h2 : (find_best_multihop_route (fun _ => 1) 5 exRoutingTie [116] [[98], [97]]).route =
      [[115], [98], [116]] := by
    rw [find_best_multihop_route]
    simp only [List.map, sortByScoreDesc, List.foldl, insertByScoreDesc, if_neg hnot]
    rfl
  refine ⟨hs, by rw [h1, h2], by rw [h1, h2]; decide⟩

/-- C8 (amended): when two candidate peers have equal scores, the peer
that appears earlier in the candidate list is selected (the sort on
score alone is stable); `last_updated` and the peer identifier are not
consulted. -/
theorem c8_tie_first_candidate (expQ : ℚ → ℚ) (now : ℚ)
    (st : CSPAdaptiveRouting) (target p1 p2 : List Nat)
    (h : calculate_peer_score expQ now st p1 = calculate_peer_score expQ now st p2) :
    (find_best_multihop_route expQ now st target [p1, p2]).route =
      [st.node_id, p1, target] := by
  simp [find_best_multihop_route, sortByScoreDesc, insertByScoreDesc, h]

/-- Witness for `c8_tie_first_candidate`: `"b"` and `"a"` tie and the
list-first `"b"` is selected. -/
theorem c8_tie_first_candidate_witness :
    calculate_peer_score (fun _ => 1) 5 exRoutingTie [98] =
      calculate_peer_score (fun _ => 1) 5 exRoutingTie [97] ∧
    (find_best_multihop_route (fun _ => 1) 5 exRoutingTie [116] [[98], [97]]).route =
      [exRoutingTie.node_id, [98], [116]] :=
  ⟨rfl, c8_tie_first_candidate (fun _ => 1) 5 exRoutingTie [116] [98] [97] rfl⟩

/-- C9, counterexample: rotating the expired `"a:b"` key does install the
fresh 32-byte secret and reset the counter, but the new record's key
identifier equals the previous record's identifier (`"a:b"`), not a
distinct one — `key_id` is always `f"{node_id}:{peer_id}"`. -/
theorem c9_counterexample :
    exExpiredKey.is_expired 4000 = true ∧
    ((get_or_create_key exCryptoExpired 4000 (List.replicate 32 2) [98]).1).symmetric_key = List.replicate 32 2 ∧
    ((get_or_create_key exCryptoExpired 4000 (List.replicate 32 2) [98]).1).sequence_number = 0 ∧
    ((get_or_create_key exCryptoExpired 4000 (List.replicate 32 2) [98]).1).key_id = exExpiredKey.key_id := by
  refine ⟨by decide, by decide, by decide, by decide⟩

/-- C9 (amended): on encrypt-side lookup, a present but TTL-expired key is
rotated — the engine installs the freshly drawn 32-byte secret, resets the
outbound sequence counter to 0 and stamps the current time — but the key
identifier remains `"{node_id}:{peer_id}"`, the same identifier the
replaced record was stored under. -/
theorem c9_rotation (st : QuantumEncryptionProtocol) (now : Nat)
    (fresh peer : List Nat) (k : QuantumKey)
    (hk : alGet st.key_store (keyIdFor st.node_id peer) = some k)
    (hexp : k.is_expired now = true) :
    get_or_create_key st now fresh peer =
      (⟨keyIdFor st.node_id peer, fresh, now, peer, 0⟩,
       { st with key_store := alSet st.key_store (keyIdFor st.node_id peer) ⟨keyIdFor st.node_id peer, fresh, now, peer, 0⟩ }) := by
  simp [get_or_create_key, hk, hexp]

/-- Witness for `c9_rotation` at the expired `"a:b"` key. -/
theorem c9_rotation_witness :
    alGet exCryptoExpired.key_store (keyIdFor exCryptoExpired.node_id [98]) = some exExpiredKey ∧
    exExpiredKey.is_expired 4000 = true ∧
    (get_or_create_key exCryptoExpired 4000 (List.replicate 32 2) [98]).1 =
      ⟨keyIdFor exCryptoExpired.node_id [98], List.replicate 32 2, 4000, [98], 0⟩ := by
  refine ⟨by decide, by decide, ?_⟩
  rw [c9_rotation exCryptoExpired 4000 (List.replicate 32 2) [98] exExpiredKey (by decide) (by decide)]

theorem record_failure_config (st : CSPFaultTolerance) (ck : List Nat) (now : ℚ) :
    (record_failure st ck now).config = st.config := by
  simp only [record_failure]
  split
  · split <;> rfl
  · rfl
  · rfl

theorem record_failure_count (st : CSPFaultTolerance) (ck : List Nat) (now : ℚ) :
    failureCountOf (record_failure st ck now) ck = failureCountOf st ck + 1 := by
  simp only [record_failure]
  split
  · split <;> simp [failureCountOf, alGet_alSet_self]
  · simp [failureCountOf, alGet_alSet_self]
  · simp [failureCountOf, alGet_alSet_self]

theorem record_failure_state_closed (st : CSPFaultTolerance) (ck : List Nat) (now : ℚ)
    (h : circuitStateOf st ck = .CLOSED) :
    circuitStateOf (record_failure st ck now) ck =
      if st.config.failure_threshold ≤ failureCountOf st ck + 1 then .OPEN else .CLOSED := by
  have h' : (alGet st.circuit_states ck).getD .CLOSED = .CLOSED := h
  have hc : failureCountOf { st with failure_counts := alSet st.failure_counts ck (failureCountOf st ck + 1), last_failure_times := alSet st.last_failure_times ck now } ck = failureCountOf st ck + 1 := by
    simp [failureCountOf, alGet_alSet_self]
  simp only [record_failure, circuitStateOf]
  rw [h']
  simp only [hc]
  split
  · simp [circuitStateOf, alGet_alSet_self]
  · exact h'

theorem record_failure_state_open (st : CSPFaultTolerance) (ck : List Nat) (now : ℚ)
    (h : circuitStateOf st ck = .OPEN) :
    circuitStateOf (record_failure st ck now) ck = .OPEN := by
  have h' : (alGet st.circuit_states ck).getD .CLOSED = .OPEN := h
  simp only [record_failure, circuitStateOf]
  rw [h']
  exact h'

theorem record_failures_open (ck : List Nat) : ∀ (nows : List ℚ) (st : CSPFaultTolerance),
    circuitStateOf st ck = .OPEN →
    circuitStateOf (record_failures st ck nows) ck = .OPEN
  | [], _, h => h
  | t :: ts, st, h =>
      record_failures_open ck ts _ (record_failure_state_open st ck t h)

theorem record_failures_closed (ck : List Nat) : ∀ (nows : List ℚ) (st : CSPFaultTolerance),
    circuitStateOf st ck = .CLOSED →
    circuitStateOf (record_failures st ck nows) ck =
      if nows = [] then .CLOSED
      else if st.config.failure_threshold ≤ failureCountOf st ck + nows.length then .OPEN
      else .CLOSED
  | [], st, h => by simpa [record_failures] using h
  | t :: ts, st, h => by
      have hstep := record_failure_state_closed st ck t h
      have hcfg := record_failure_config st ck t
      have hcnt := record_failure_count st ck t
      by_cases hthr : st.config.failure_threshold ≤ failureCountOf st ck + 1
      · rw [if_pos hthr] at hstep
        have hopen := record_failures_open ck ts _ hstep
        have hfin : circuitStateOf (record_failures st ck (t :: ts)) ck = .OPEN := hopen
        rw [hfin]
        have hcond : st.config.failure_threshold ≤ failureCountOf st ck + (ts.length + 1) := by
          omega
        simp [hcond]
      · rw [if_neg hthr] at hstep
        have ih := record_failures_closed ck ts (record_failure st ck t) hstep
        have hfin : circuitStateOf (record_failures st ck (t :: ts)) ck =
            circuitStateOf (record_failures (record_failure st ck t) ck ts) ck := rfl
        rw [hfin, ih, hcfg, hcnt]
        rcases ts with - | ⟨t2, ts2⟩
        · simp only [List.length_cons, List.length_nil]
          have h5 : ¬ st.config.failure_threshold ≤ failureCountOf st ck + (0 + 1) := by omega
          simp [hthr, h5]
        · simp only [List.length_cons]
          have harith : failureCountOf st ck + 1 + (ts2.length + 1) = failureCountOf st ck + (ts2.length + 1 + 1) := by omega
          simp [harith]

/-- C5: starting from a CLOSED circuit with a zero consecutive-failure
counter under the default configuration (`failure_threshold = 5`), a run
of consecutive failures opens the circuit exactly when it reaches 5
failures and no sooner; and every success recorded while the circuit is
CLOSED resets the consecutive-failure counter to zero. -/
theorem c5_circuit_opens (st : CSPFaultTolerance) (ck : List Nat) (nows : List ℚ)
    (hclosed : circuitStateOf st ck = .CLOSED)
    (h0 : failureCountOf st ck = 0)
    (hthr : st.config.failure_threshold = 5) :
    (circuitStateOf (record_failures st ck nows) ck =
      if 5 ≤ nows.length then .OPEN else .CLOSED) ∧
    (∀ st2 : CSPFaultTolerance, circuitStateOf st2 ck = .CLOSED →
      failureCountOf (record_success st2 ck) ck = 0) := by
  constructor
  · rw [record_failures_closed ck nows st hclosed, h0, hthr]
    rcases nows with - | ⟨t, ts⟩
    · simp
    · simp
  · intro st2 h2
    have h2' : (alGet st2.circuit_states ck).getD .CLOSED = .CLOSED := h2
    simp only [record_success, circuitStateOf]
    rw [h2']
    simp [failureCountOf, alGet_alSet_self]

/-- Witness for `c5_circuit_opens`: from a fresh instance, five failures
open the `"p"` circuit and four do not. -/
theorem c5_circuit_opens_witness :
    circuitStateOf exFaultFresh [112] = .CLOSED ∧
    failureCountOf exFaultFresh [112] = 0 ∧
    circuitStateOf (record_failures exFaultFresh [112] [0, 0, 0, 0, 0]) [112] = .OPEN ∧
    circuitStateOf (record_failures exFaultFresh [112] [0, 0, 0, 0]) [112] = .CLOSED := by
  refine ⟨rfl, rfl, ?_, ?_⟩
  · have h := (c5_circuit_opens exFaultFresh [112] [0, 0, 0, 0, 0] rfl rfl rfl).1
    simpa using h
  · have h := (c5_circuit_opens exFaultFresh [112] [0, 0, 0, 0] rfl rfl rfl).1
    simpa using h

theorem intToBytesBE8_ofNat (n : Nat) (h : n < 2 ^ 64) :
    intToBytesBE8 (n : Int) = some (natToBytesBE8 n) := by
  have h0 : n < 18446744073709551616 :=
    (by norm_num : (2 : Nat) ^ 64 = 18446744073709551616) ▸ h
  have h1 : (0 : Int) ≤ (n : Int) := Int.natCast_nonneg n
  have h2 : (n : Int) < (18446744073709551616 : Int) := by exact_mod_cast h0
  simp [intToBytesBE8, natToBytesBE8, h1, h2]

theorem keystream_length (k : DerivedKey) (nonce : List Nat) (n : Nat) :
    (keystream k nonce n).length = n := by
  simp [keystream]

theorem get_or_create_key_found (st : QuantumEncryptionProtocol) (now : Nat)
    (fresh peer : List Nat) (rec : QuantumKey)
    (hA : alGet st.key_store (keyIdFor st.node_id peer) = some rec)
    (hexp : rec.is_expired now = false) :
    get_or_create_key st now fresh peer = (rec, st) := by
  unfold get_or_create_key
  simp [hA, hexp]

theorem encryptPayload_ok (node target symmetric_key key_id : List Nat)
    (seqI : Int) (sb nonce data : List Nat)
    (hsb : intToBytesBE8 seqI = some sb) :
    encryptPayload node target symmetric_key key_id seqI nonce data =
      .ok ⟨bytesHex nonce,
           bytesHex (aesGcmEncrypt (hkdfSha256 nonce (keyIdFor node target) symmetric_key) nonce sb data).1,
           bytesHex (aesGcmEncrypt (hkdfSha256 nonce (keyIdFor node target) symmetric_key) nonce sb data).2,
           seqI, key_id,
           bytesHex (hmacSha256 (hkdfSha256 hmacSaltBytes quantumP2pHmacBytes symmetric_key) (nonce ++ sb ++ (aesGcmEncrypt (hkdfSha256 nonce (keyIdFor node target) symmetric_key) nonce sb data).1 ++ (aesGcmEncrypt (hkdfSha256 nonce (keyIdFor node target) symmetric_key) nonce sb data).2))⟩ := by
  unfold encryptPayload
  rw [hsb]

theorem quantum_encrypt_found (st : QuantumEncryptionProtocol) (now : Nat)
    (nonce fresh data tgt : List Nat) (rec : QuantumKey)
    (hA : alGet st.key_store (keyIdFor st.node_id tgt) = some rec)
    (hexp : rec.is_expired now = false)
    (hb : rec.sequence_number + 1 < 2 ^ 64) :
    quantum_encrypt st now nonce fresh data tgt =
      (.ok (encEnvelope st.node_id tgt rec nonce data),
       { st with key_store := alSet st.key_store (keyIdFor st.node_id tgt) { rec with sequence_number := rec.sequence_number + 1 } }) := by
  unfold quantum_encrypt
  rw [get_or_create_key_found st now fresh tgt rec hA hexp]
  simp only [encryptPayload_ok st.node_id tgt rec.symmetric_key rec.key_id
    ((rec.sequence_number + 1 : Nat) : Int) (natToBytesBE8 (rec.sequence_number + 1)) nonce data
    (intToBytesBE8_ofNat (rec.sequence_number + 1) hb), encEnvelope]

theorem quantum_decrypt_ok (stB : QuantumEncryptionProtocol)
    (sender kid : List Nat) (recB : QuantumKey) (seqI : Int)
    (nonce ct tag hm sb : List Nat)
    (hB : alGet stB.key_store kid = some recB)
    (hseq : watermarkOf stB sender < seqI)
    (hnonce : ∀ b ∈ nonce, b < 256) (hct : ∀ b ∈ ct, b < 256)
    (htag : ∀ b ∈ tag, b < 256) (hhm : ∀ b ∈ hm, b < 256)
    (hsb : intToBytesBE8 seqI = some sb)
    (hhmac : hm = hmacSha256 (hkdfSha256 hmacSaltBytes quantumP2pHmacBytes recB.symmetric_key) (nonce ++ sb ++ ct ++ tag))
    (htagv : gcmTag (hkdfSha256 nonce (keyIdFor sender stB.node_id) recB.symmetric_key) nonce sb ct = tag) :
    quantum_decrypt stB
      ⟨some (.vstr kid), some (.vint seqI), some (.vstr (bytesHex nonce)),
       some (.vstr (bytesHex ct)), some (.vstr (bytesHex tag)),
       some (.vstr (bytesHex hm))⟩ sender =
      (some (List.zipWith (· ^^^ ·) ct (keystream (hkdfSha256 nonce (keyIdFor sender stB.node_id) recB.symmetric_key) nonce ct.length)),
       { stB with sequence_numbers := alSet stB.sequence_numbers sender seqI }) := by
  simp only [quantum_decrypt, getHexField, hB, hsb,
    bytesFromHex_bytesHex nonce hnonce, bytesFromHex_bytesHex ct hct,
    bytesFromHex_bytesHex tag htag, bytesFromHex_bytesHex hm hhm]
  rw [if_neg (not_le.mpr hseq)]
  rw [if_neg (show ¬ hm ≠ hmacSha256 (hkdfSha256 hmacSaltBytes quantumP2pHmacBytes recB.symmetric_key) (nonce ++ sb ++ ct ++ tag) from not_not_intro hhmac)]
  simp only [aesGcmDecrypt, htagv]
  simp

/-- C1: round-trip.  If sender `A` holds a live (not TTL-expired) session
key record under `"{A}:{B}"` whose stored identifier is that same string,
the receiver's store maps that identifier to a record with the same
32-byte secret, the receiver is node `B` (the encrypt target), the
receiver's inbound watermark for `A` is below the sequence the encrypt
emits, and plaintext and nonce are byte strings, then `A`'s
`quantum_encrypt` succeeds and `B`'s `quantum_decrypt` of the produced
envelope returns exactly the original plaintext. -/
theorem c1_roundtrip (stA stB : QuantumEncryptionProtocol) (now : Nat)
    (nonce fresh data tgt : List Nat) (recA recB : QuantumKey)
    (hA : alGet stA.key_store (keyIdFor stA.node_id tgt) = some recA)
    (hkid : recA.key_id = keyIdFor stA.node_id tgt)
    (hexp : recA.is_expired now = false)
    (hb : recA.sequence_number + 1 < 2 ^ 64)
    (hB : alGet stB.key_store (keyIdFor stA.node_id tgt) = some recB)
    (hsec : recB.symmetric_key = recA.symmetric_key)
    (hnode : stB.node_id = tgt)
    (hwm : watermarkOf stB stA.node_id < ((recA.sequence_number + 1 : Nat) : Int))
    (hdata : ∀ b ∈ data, b < 256)
    (hnonce : ∀ b ∈ nonce, b < 256) :
    (quantum_encrypt stA now nonce fresh data tgt).1 =
      .ok (encEnvelope stA.node_id tgt recA nonce data) ∧
    (quantum_decrypt stB (toAnyEnvelope (encEnvelope stA.node_id tgt recA nonce data)) stA.node_id).1 = some data := by
  constructor
  · rw [quantum_encrypt_found stA now nonce fresh data tgt recA hA hexp hb]
  · have hB' : alGet stB.key_store recA.key_id = some recB := by rw [hkid]; exact hB
    have hsb := intToBytesBE8_ofNat (recA.sequence_number + 1) hb
    have hct : ∀ b ∈ (aesGcmEncrypt (hkdfSha256 nonce (keyIdFor stA.node_id tgt) recA.symmetric_key) nonce (natToBytesBE8 (recA.sequence_number + 1)) data).1, b < 256 := by
      intro b hbm
      simp only [aesGcmEncrypt] at hbm
      exact mem_zipWith_xor_lt data _ hdata (fun x hx => mem_keystream_lt hx) b hbm
    have htagb : ∀ b ∈ (aesGcmEncrypt (hkdfSha256 nonce (keyIdFor stA.node_id tgt) recA.symmetric_key) nonce (natToBytesBE8 (recA.sequence_number + 1)) data).2, b < 256 := by
      intro b hbm
      simp only [aesGcmEncrypt] at hbm
      exact mem_gcmTag_lt hbm
    have hhmb : ∀ b ∈ hmacSha256 (hkdfSha256 hmacSaltBytes quantumP2pHmacBytes recA.symmetric_key) (nonce ++ natToBytesBE8 (recA.sequence_number + 1) ++ (aesGcmEncrypt (hkdfSha256 nonce (keyIdFor stA.node_id tgt) recA.symmetric_key) nonce (natToBytesBE8 (recA.sequence_number + 1)) data).1 ++ (aesGcmEncrypt (hkdfSha256 nonce (keyIdFor stA.node_id tgt) recA.symmetric_key) nonce (natToBytesBE8 (recA.sequence_number + 1)) data).2), b < 256 :=
      fun b hbm => mem_hmacSha256_lt hbm
    have hhmac : hmacSha256 (hkdfSha256 hmacSaltBytes quantumP2pHmacBytes recA.symmetric_key) (nonce ++ natToBytesBE8 (recA.sequence_number + 1) ++ (aesGcmEncrypt (hkdfSha256 nonce (keyIdFor stA.node_id tgt) recA.symmetric_key) nonce (natToBytesBE8 (recA.sequence_number + 1)) data).1 ++ (aesGcmEncrypt (hkdfSha256 nonce (keyIdFor stA.node_id tgt) recA.symmetric_key) nonce (natToBytesBE8 (recA.sequence_number + 1)) data).2) =
        hmacSha256 (hkdfSha256 hmacSaltBytes quantumP2pHmacBytes recB.symmetric_key) (nonce ++ natToBytesBE8 (recA.sequence_number + 1) ++ (aesGcmEncrypt (hkdfSha256 nonce (keyIdFor stA.node_id tgt) recA.symmetric_key) nonce (natToBytesBE8 (recA.sequence_number + 1)) data).1 ++ (aesGcmEncrypt (hkdfSha256 nonce (keyIdFor stA.node_id tgt) recA.symmetric_key) nonce (natToBytesBE8 (recA.sequence_number + 1)) data).2) := by
      rw [hsec]
    have htagv : gcmTag (hkdfSha256 nonce (keyIdFor stA.node_id stB.node_id) recB.symmetric_key) nonce (natToBytesBE8 (recA.sequence_number + 1)) (aesGcmEncrypt (hkdfSha256 nonce (keyIdFor stA.node_id tgt) recA.symmetric_key) nonce (natToBytesBE8 (recA.sequence_number + 1)) data).1 =
        (aesGcmEncrypt (hkdfSha256 nonce (keyIdFor stA.node_id tgt) recA.symmetric_key) nonce (natToBytesBE8 (recA.sequence_number + 1)) data).2 := by
      rw [hnode, hsec]
      simp [aesGcmEncrypt]
    have hd := quantum_decrypt_ok stB stA.node_id recA.key_id recB
      ((recA.sequence_number + 1 : Nat) : Int) nonce
      (aesGcmEncrypt (hkdfSha256 nonce (keyIdFor stA.node_id tgt) recA.symmetric_key) nonce (natToBytesBE8 (recA.sequence_number + 1)) data).1
      (aesGcmEncrypt (hkdfSha256 nonce (keyIdFor stA.node_id tgt) recA.symmetric_key) nonce (natToBytesBE8 (recA.sequence_number + 1)) data).2
      (hmacSha256 (hkdfSha256 hmacSaltBytes quantumP2pHmacBytes recA.symmetric_key) (nonce ++ natToBytesBE8 (recA.sequence_number + 1) ++ (aesGcmEncrypt (hkdfSha256 nonce (keyIdFor stA.node_id tgt) recA.symmetric_key) nonce (natToBytesBE8 (recA.sequence_number + 1)) data).1 ++ (aesGcmEncrypt (hkdfSha256 nonce (keyIdFor stA.node_id tgt) recA.symmetric_key) nonce (natToBytesBE8 (recA.sequence_number + 1)) data).2))
      (natToBytesBE8 (recA.sequence_number + 1))
      hB' hwm hnonce hct htagb hhmb hsb hhmac htagv
    have henv : toAnyEnvelope (encEnvelope stA.node_id tgt recA nonce data) =
        ⟨some (.vstr recA.key_id), some (.vint ((recA.sequence_number + 1 : Nat) : Int)),
         some (.vstr (bytesHex nonce)),
         some (.vstr (bytesHex (aesGcmEncrypt (hkdfSha256 nonce (keyIdFor stA.node_id tgt) recA.symmetric_key) nonce (natToBytesBE8 (recA.sequence_number + 1)) data).1)),
         some (.vstr (bytesHex (aesGcmEncrypt (hkdfSha256 nonce (keyIdFor stA.node_id tgt) recA.symmetric_key) nonce (natToBytesBE8 (recA.sequence_number + 1)) data).2)),
         some (.vstr (bytesHex (hmacSha256 (hkdfSha256 hmacSaltBytes quantumP2pHmacBytes recA.symmetric_key) (nonce ++ natToBytesBE8 (recA.sequence_number + 1) ++ (aesGcmEncrypt (hkdfSha256 nonce (keyIdFor stA.node_id tgt) recA.symmetric_key) nonce (natToBytesBE8 (recA.sequence_number + 1)) data).1 ++ (aesGcmEncrypt (hkdfSha256 nonce (keyIdFor stA.node_id tgt) recA.symmetric_key) nonce (natToBytesBE8 (recA.sequence_number + 1)) data).2))))⟩ := by
      simp only [toAnyEnvelope, encEnvelope]
    rw [henv, hd]
    have hlen : (aesGcmEncrypt (hkdfSha256 nonce (keyIdFor stA.node_id tgt) recA.symmetric_key) nonce (natToBytesBE8 (recA.sequence_number + 1)) data).1.length = data.length := by
      simp [aesGcmEncrypt, keystream_length]
    simp only [hlen, hnode, hsec]
    simp only [aesGcmEncrypt]
    rw [zipWith_xor_cancel data _ (keystream_length _ _ _)]

/-- Witness for `c1_roundtrip`: nodes `"a"` and `"b"` share the all-zero
`"a:b"` key; `"a"` encrypts the plaintext `"hi"` and `"b"` decrypts the
envelope back to it. -/
theorem c1_roundtrip_witness :
    alGet exCryptoA.key_store (keyIdFor exCryptoA.node_id [98]) = some exKeyAB ∧
    exKeyAB.is_expired 5 = false ∧
    watermarkOf exCryptoB [97] < ((exKeyAB.sequence_number + 1 : Nat) : Int) ∧
    ((quantum_encrypt exCryptoA 5 (List.replicate 12 0) [] [104, 105] [98]).1 =
        .ok (encEnvelope exCryptoA.node_id [98] exKeyAB (List.replicate 12 0) [104, 105]) ∧
      (quantum_decrypt exCryptoB (toAnyEnvelope (encEnvelope exCryptoA.node_id [98] exKeyAB (List.replicate 12 0) [104, 105])) exCryptoA.node_id).1 = some [104, 105]) :=
  ⟨by decide, by decide, by decide,
   c1_roundtrip exCryptoA exCryptoB 5 (List.replicate 12 0) [] [104, 105] [98]
     exKeyAB exKeyAB (by decide) (by decide) (by decide) (by decide) (by decide)
     (by decide) (by decide) (by decide) (by decide) (by decide)⟩

theorem quantum_encrypt_iter_seqs (target : List Nat) : ∀ (calls : List EncCall)
    (st : QuantumEncryptionProtocol) (rec : QuantumKey),
    alGet st.key_store (keyIdFor st.node_id target) = some rec →
    (∀ c ∈ calls, rec.is_expired c.now = false) →
    rec.sequence_number + calls.length < 2 ^ 64 →
    (quantum_encrypt_iter st target calls).1.map emittedSequence =
      (List.range calls.length).map (fun i => some ((rec.sequence_number + i + 1 : Nat) : Int))
  | [], st, rec, _, _, _ => by simp [quantum_encrypt_iter]
  | c :: cs, st, rec, hA, hexp, hb => by
      have hexp1 : rec.is_expired c.now = false := hexp c (by simp)
      have hb1 : rec.sequence_number + 1 < 2 ^ 64 := by
        simp only [List.length_cons] at hb
        omega
      have hstep := quantum_encrypt_found st c.now c.nonce c.fresh c.data target rec hA hexp1 hb1
      have hA' : alGet (quantum_encrypt st c.now c.nonce c.fresh c.data target).2.key_store (keyIdFor (quantum_encrypt st c.now c.nonce c.fresh c.data target).2.node_id target) = some { rec with sequence_number := rec.sequence_number + 1 } := by
        rw [hstep]
        exact alGet_alSet_self _ _ _
      have hexp' : ∀ c' ∈ cs, ({ rec with sequence_number := rec.sequence_number + 1 } : QuantumKey).is_expired c'.now = false :=
        fun c' hc' => hexp c' (List.mem_cons_of_mem _ hc')
      have hb' : ({ rec with sequence_number := rec.sequence_number + 1 } : QuantumKey).sequence_number + cs.length < 2 ^ 64 := by
        show rec.sequence_number + 1 + cs.length < 2 ^ 64
        simp only [List.length_cons] at hb
        omega
      have ih := quantum_encrypt_iter_seqs target cs
        (quantum_encrypt st c.now c.nonce c.fresh c.data target).2
        { rec with sequence_number := rec.sequence_number + 1 } hA' hexp' hb'
      simp only [quantum_encrypt_iter, List.map_cons, ih]
      rw [hstep]
      simp only [emittedSequence, encEnvelope, List.length_cons, List.range_succ_eq_map,
        List.map_cons, List.map_map]
      simp only [List.cons.injEq]
      constructor
      · norm_num
      · apply List.map_congr_left
        intro i _
        simp only [Function.comp_apply]
        exact congrArg (fun m : Nat => some ((m : Int))) (by omega)

/-- C3: sequence monotonicity.  Starting from a stored session key record
with counter 0, a run of `N` encrypt calls to its peer, each made while
the record is not TTL-expired (so the record is never rotated), emits
exactly the sequence numbers `1, 2, …, N` in order — the outbound
counter never resets for the lifetime of the record. -/
theorem c3_sequence_monotone (st : QuantumEncryptionProtocol) (target : List Nat)
    (rec : QuantumKey) (calls : List EncCall)
    (hA : alGet st.key_store (keyIdFor st.node_id target) = some rec)
    (h0 : rec.sequence_number = 0)
    (hexp : ∀ c ∈ calls, rec.is_expired c.now = false)
    (hN : calls.length < 2 ^ 64) :
    (quantum_encrypt_iter st target calls).1.map emittedSequence =
      (List.range calls.length).map (fun i => some ((i + 1 : Nat) : Int)) := by
  have h := quantum_encrypt_iter_seqs target calls st rec hA hexp (by omega)
  rw [h0] at h
  simpa using h

/-- Witness for `c3_sequence_monotone`: two encrypts from the fresh
`"a:b"` key emit sequences 1 and 2. -/
theorem c3_sequence_monotone_witness :
    alGet exCryptoA.key_store (keyIdFor exCryptoA.node_id [98]) = some exKeyAB ∧
    exKeyAB.sequence_number = 0 ∧
    (∀ c ∈ exCalls, exKeyAB.is_expired c.now = false) ∧
    (quantum_encrypt_iter exCryptoA [98] exCalls).1.map emittedSequence =
      (List.range exCalls.length).map (fun i => some ((i + 1 : Nat) : Int)) :=
  ⟨by decide, by decide, by decide,
   c3_sequence_monotone exCryptoA [98] exKeyAB exCalls (by decide) (by decide)
     (by decide) (by decide)⟩

theorem quantum_decrypt_cases (st : QuantumEncryptionProtocol)
    (env : AnyEnvelope) (sender : List Nat) :
    quantum_decrypt st env sender = (none, st) ∨
    ∃ pt n, env.sequence = some (.vint n) ∧ watermarkOf st sender < n ∧
      quantum_decrypt st env sender =
        (some pt, { st with sequence_numbers := alSet st.sequence_numbers sender n }) := by
  cases hk : env.key_id with
  | none => exact Or.inl (by simp [quantum_decrypt, hk])
  | some v =>
    cases v with
    | vint m => exact Or.inl (by simp [quantum_decrypt, hk])
    | vstr kid =>
      cases hg : alGet st.key_store kid with
      | none => exact Or.inl (by simp [quantum_decrypt, hk, hg])
      | some qk =>
        cases hs : env.sequence with
        | none => exact Or.inl (by simp [quantum_decrypt, hk, hg, hs])
        | some sv =>
          cases sv with
          | vstr s => exact Or.inl (by simp [quantum_decrypt, hk, hg, hs])
          | vint n =>
            by_cases hle : n ≤ watermarkOf st sender
            · exact Or.inl (by simp [quantum_decrypt, hk, hg, hs, hle])
            · cases hn : getHexField env.nonce with
              | none => exact Or.inl (by simp [quantum_decrypt, hk, hg, hs, hle, hn])
              | some nonce =>
                cases hc : getHexField env.ciphertext with
                | none => exact Or.inl (by simp [quantum_decrypt, hk, hg, hs, hle, hn, hc])
                | some ct =>
                  cases ht : getHexField env.tag with
                  | none => exact Or.inl (by simp [quantum_decrypt, hk, hg, hs, hle, hn, hc, ht])
                  | some tg =>
                    cases hh : getHexField env.hmac with
                    | none => exact Or.inl (by simp [quantum_decrypt, hk, hg, hs, hle, hn, hc, ht, hh])
                    | some hm =>
                      cases hsb : intToBytesBE8 n with
                      | none => exact Or.inl (by simp [quantum_decrypt, hk, hg, hs, hle, hn, hc, ht, hh, hsb])
                      | some sb =>
                        by_cases hhm : hm ≠ hmacSha256 (hkdfSha256 hmacSaltBytes quantumP2pHmacBytes qk.symmetric_key) (nonce ++ (sb ++ (ct ++ tg)))
                        · exact Or.inl (by simp [quantum_decrypt, hk, hg, hs, hle, hn, hc, ht, hh, hsb, hhm])
                        · cases hdec : aesGcmDecrypt (hkdfSha256 nonce (keyIdFor sender st.node_id) qk.symmetric_key) nonce tg sb ct with
                          | none => exact Or.inl (by simp [quantum_decrypt, hk, hg, hs, hle, hn, hc, ht, hh, hsb, hhm, hdec])
                          | some pt =>
                            refine Or.inr ⟨pt, n, rfl, not_le.mp hle, ?_⟩
                            simp [quantum_decrypt, hk, hg, hs, hle, hn, hc, ht, hh, hsb, hhm, hdec]

theorem quantum_decrypt_replay (st : QuantumEncryptionProtocol)
    (env : AnyEnvelope) (sender : List Nat) (n : Int)
    (hseq : env.sequence = some (.vint n))
    (hle : n ≤ watermarkOf st sender) :
    quantum_decrypt st env sender = (none, st) := by
  rcases quantum_decrypt_cases st env sender with h | ⟨pt, m, hs2, hlt, h⟩
  · exact h
  · rw [hseq] at hs2
    have hnm : n = m := by simpa using hs2
    omega

/-- C2: replay rejection with watermark atomicity.  (1) Whenever decrypt
rejects (returns `none`), the entire protocol state — in particular the
watermark — is unchanged.  (2) Any envelope whose sequence is ≤ the
receiver's watermark for the sender is rejected with the state
unchanged.  (3) When decrypt succeeds, the envelope carried an integer
sequence above the watermark, the watermark is set to exactly that
sequence, and replaying the same envelope afterwards fails. -/
theorem c2_replay_rejection (st : QuantumEncryptionProtocol)
    (env : AnyEnvelope) (sender : List Nat) :
    ((quantum_decrypt st env sender).1 = none → (quantum_decrypt st env sender).2 = st) ∧
    (∀ n : Int, env.sequence = some (.vint n) → n ≤ watermarkOf st sender →
      quantum_decrypt st env sender = (none, st)) ∧
    (∀ pt st', quantum_decrypt st env sender = (some pt, st') →
      (∃ n : Int, env.sequence = some (.vint n) ∧ watermarkOf st sender < n ∧
        watermarkOf st' sender = n) ∧
      quantum_decrypt st' env sender = (none, st')) := by
  refine ⟨?_, fun n hs hle => quantum_decrypt_replay st env sender n hs hle, ?_⟩
  · intro h1
    rcases quantum_decrypt_cases st env sender with h | ⟨pt, n, -, -, h⟩
    · rw [h]
    · rw [h] at h1
      simp at h1
  · intro pt st' h
    rcases quantum_decrypt_cases st env sender with h2 | ⟨pt2, n, hs, hlt, h2⟩
    · rw [h] at h2
      simp at h2
    · rw [h] at h2
      have hst' : st' = { st with sequence_numbers := alSet st.sequence_numbers sender n } :=
        congrArg Prod.snd h2
      have hwm' : watermarkOf st' sender = n := by
        rw [hst']
        simp [watermarkOf, alGet_alSet_self]
      exact ⟨⟨n, hs, hlt, hwm'⟩,
        quantum_decrypt_replay st' env sender n hs (le_of_eq hwm'.symm)⟩

/-- Witness for `c2_replay_rejection`: node `"b"` with watermark 5 for
`"a"` rejects an envelope with sequence 3 and its state is unchanged. -/
theorem c2_replay_rejection_witness :
    exReplayEnv.sequence = some (.vint 3) ∧
    (3 : Int) ≤ watermarkOf exCryptoBHigh [97] ∧
    quantum_decrypt exCryptoBHigh exReplayEnv [97] = (none, exCryptoBHigh) :=
  ⟨rfl, by decide,
   (c2_replay_rejection exCryptoBHigh exReplayEnv [97]).2.1 3 rfl (by decide)⟩

/-- C10: totality of decrypt.  For every inbound envelope dict — fields
missing, of the wrong type, carrying non-hex or malformed strings, an
unknown key identifier, or failing any cryptographic check — decrypt
returns either a rejection `(none, unchanged state)` or a plaintext with
the single watermark assignment; no other outcome (in particular no
uncaught exception) exists. -/
theorem c10_decrypt_total (st : QuantumEncryptionProtocol)
    (env : AnyEnvelope) (sender : List Nat) :
    quantum_decrypt st env sender = (none, st) ∨
    ∃ pt n, env.sequence = some (.vint n) ∧
      quantum_decrypt st env sender =
        (some pt, { st with sequence_numbers := alSet st.sequence_numbers sender n }) := by
  rcases quantum_decrypt_cases st env sender with h | ⟨pt, n, hs, -, h⟩
  · exact Or.inl h
  · exact Or.inr ⟨pt, n, hs, h⟩

end UltimateAgent
